import Mathlib

/-!
A verification development for the `go-swe-agent` repository.

The Go sources are shallowly embedded: pure routines become Lean functions;
the Planner / Executor / Orchestrator control loops become functions over an
explicit `AgentState`, with the external completion service, the tool
executor and the clock supplied as oracle parameters (one oracle value per
round, which captures every possible behaviour of the external services).
Strings are modelled with Lean `String`; the Go code indexes and measures
strings in bytes, which coincides with character counts on ASCII data, and
all fixed markers and prefixes in the program are ASCII.
-/

set_option maxHeartbeats 1000000

deriving instance DecidableEq for Except

namespace GoSwe

/-! ## String helpers modelling the Go `strings` package -/

/-- Character-list prefix test: model of Go `strings.HasPrefix`
(bytewise prefix; equivalent to codepoint-wise prefix for the ASCII
prefixes used by this program). -/
def strStarts : List Char → List Char → Bool
  | [], _ => true
  | _ :: _, [] => false
  | a :: as, b :: bs => a = b && strStarts as bs

/-- Go `strings.HasPrefix s pre`. -/
def goStartsWith (s pre : String) : Bool :=
  strStarts pre.data s.data

/-- If `pat` is a prefix of `cs`, the remainder after it. -/
def dropPre : List Char → List Char → Option (List Char)
  | [], cs => some cs
  | _ :: _, [] => none
  | p :: ps, c :: cs => if p = c then dropPre ps cs else none

/-- Does `pat` occur as a contiguous run inside `cs`?  (Go
`strings.Contains` on the character level.) -/
def hasSub : List Char → List Char → Bool
  | [], pat => pat.isEmpty
  | c :: cs, pat => strStarts pat (c :: cs) || hasSub cs pat

/-- Model of Go `strings.Contains`. -/
def goContains (s sub : String) : Bool :=
  hasSub s.data sub.data

/-- The suffix after the first (leftmost) occurrence of `pat`, if any. -/
def afterFirst (pat : List Char) : List Char → Option (List Char)
  | [] => if pat.isEmpty then some [] else none
  | c :: cs =>
    match dropPre pat (c :: cs) with
    | some rest => some rest
    | none => afterFirst pat cs

/-- The part of `cs` before the first occurrence of `pat` (all of `cs`
when `pat` does not occur). -/
def upToFirst (pat : List Char) : List Char → List Char
  | [] => []
  | c :: cs =>
    match dropPre pat (c :: cs) with
    | some _ => []
    | none => c :: upToFirst pat cs

/-- Go `strings.Split(s, "\n")` on the character level: like Go, a
trailing newline yields a final empty part and an input without the
separator yields the one-element list. -/
def splitNL : List Char → List (List Char)
  | [] => [[]]
  | c :: cs =>
    if c = '\n' then [] :: splitNL cs
    else
      match splitNL cs with
      | [] => [[c]]
      | l :: ls => (c :: l) :: ls

/-- Go `strings.TrimSpace` (both-ends whitespace trim; the program only
ever meets ASCII whitespace). -/
def goTrim (s : String) : String :=
  ⟨((s.data.dropWhile Char.isWhitespace).reverse.dropWhile
      Char.isWhitespace).reverse⟩

/-- Drop the first `n` characters (Go slicing `s[n:]` on ASCII data). -/
def goDrop (s : String) (n : Nat) : String :=
  ⟨s.data.drop n⟩

/-- Go `strings.ToLower` (ASCII case folding suffices for the fixed
phrases this program searches for). -/
def goToLower (s : String) : String :=
  ⟨s.data.map Char.toLower⟩

/-! ## Data model (pkg/state/state.go) -/

/-- Model of `state.Task`.  `Status` is a Go string taking the values
`pending`, `in_progress`, `completed`, `failed`; timestamps are modelled as
abstract `Option Nat` instants (`none` = the nil `*time.Time`). -/
structure Task where
  id : String
  description : String
  status : String
  output : String
  error : String
  startedAt : Option Nat
  completedAt : Option Nat
deriving DecidableEq, Repr

/-- Model of `state.Plan`. -/
structure Plan where
  tasks : List Task
  summary : String
  createdAt : Nat
  isApproved : Bool
deriving DecidableEq, Repr

/-- Model of `llm.ToolUseContent` (also `state.ToolCall`): a tool invocation
requested by the model.  The free-form JSON argument map is modelled as a
string-keyed association list. -/
structure ToolUseContent where
  id : String
  name : String
  input : List (String × String)
deriving DecidableEq, Repr

/-- Model of `llm.ToolResultContent`: one tool result echoed back to the model. -/
structure ToolResultContent where
  toolUseId : String
  content : String
  isError : Bool
deriving DecidableEq, Repr

/-- Content payload of one conversation turn (`llm.AnthropicMessage.Content`,
an `interface{}` in Go, here a tagged union: plain text, the parsed
text/tool-use blocks of an assistant response, or a list of tool results). -/
inductive MsgContent where
  | text (s : String)
  | response (text : String) (toolCalls : List ToolUseContent)
  | toolResults (rs : List ToolResultContent)
deriving DecidableEq, Repr

/-- Model of `llm.AnthropicMessage` and `state.Message`: one conversation turn. -/
structure AMessage where
  role : String
  content : MsgContent
deriving DecidableEq, Repr

/-- Model of `state.AgentState`: the mutable record of one run.  Go's
`CurrentTask *Task` points into the live `Plan.Tasks` slice; here it holds
the snapshot of the task taken when `StartTask` set it. -/
structure AgentState where
  messages : List AMessage
  plan : Option Plan
  currentTask : Option Task
  workingDir : String
  originalRequest : String
  errors : List String
  completedTasks : List Task
deriving DecidableEq, Repr

/-- Model of `state.NewAgentState`. -/
def NewAgentState (workingDir request : String) : AgentState :=
  { messages := [], plan := none, currentTask := none,
    workingDir := workingDir, originalRequest := request,
    errors := [], completedTasks := [] }

/-- The `for i := range s.Plan.Tasks { if Tasks[i].ID == taskID { ...; break } }`
pattern shared by `StartTask`, `MarkTaskComplete` and `MarkTaskFailed`:
update the first task with the given id, returning the updated list and the
updated task (`none` when no task matched). -/
def findAndUpdate (f : Task → Task) (taskID : String) :
    List Task → List Task × Option Task
  | [] => ([], none)
  | t :: rest =>
    if t.id = taskID then (f t :: rest, some (f t))
    else
      let r := findAndUpdate f taskID rest
      (t :: r.1, r.2)

/-- Model of `(*AgentState).MarkTaskComplete`; `now` stands for the `time.Now()`
taken at the head of the Go function. -/
def AgentState.MarkTaskComplete (s : AgentState) (now : Nat)
    (taskID output : String) : AgentState :=
  match s.plan with
  | none => s
  | some p =>
    let r := findAndUpdate
      (fun t => { t with status := "completed", output := output,
                         completedAt := some now }) taskID p.tasks
    match r.2 with
    | none => { s with plan := some { p with tasks := r.1 } }
    | some t => { s with plan := some { p with tasks := r.1 },
                         completedTasks := s.completedTasks ++ [t] }

/-- Model of `(*AgentState).MarkTaskFailed`. -/
def AgentState.MarkTaskFailed (s : AgentState) (now : Nat)
    (taskID err : String) : AgentState :=
  match s.plan with
  | none => s
  | some p =>
    let r := findAndUpdate
      (fun t => { t with status := "failed", error := err,
                         completedAt := some now }) taskID p.tasks
    match r.2 with
    | none => { s with plan := some { p with tasks := r.1 } }
    | some _ => { s with plan := some { p with tasks := r.1 },
                         errors := s.errors ++ [err] }

/-- Model of `(*AgentState).StartTask`. -/
def AgentState.StartTask (s : AgentState) (now : Nat)
    (taskID : String) : AgentState :=
  match s.plan with
  | none => s
  | some p =>
    let r := findAndUpdate
      (fun t => { t with status := "in_progress", startedAt := some now })
      taskID p.tasks
    match r.2 with
    | none => { s with plan := some { p with tasks := r.1 } }
    | some t => { s with plan := some { p with tasks := r.1 },
                         currentTask := some t }

/-- Status of the first task with the given id in the installed plan. -/
def AgentState.taskStatus (s : AgentState) (taskID : String) : Option String :=
  match s.plan with
  | none => none
  | some p => (p.tasks.find? (fun t => t.id = taskID)).map Task.status

/-- The first task with the given id in the installed plan. -/
def AgentState.findTask (s : AgentState) (taskID : String) : Option Task :=
  match s.plan with
  | none => none
  | some p => p.tasks.find? (fun t => t.id = taskID)

/-! ## Plan extraction ((*Planner).parsePlanFromText, pkg/agents/planner.go) -/

/-- The hard-coded numbered-item markers `"1."` … `"15."` that
`parsePlanFromText` tries, in source order. -/
def numMarkers : List String :=
  ["1.", "2.", "3.", "4.", "5.", "6.", "7.", "8.", "9.",
   "10.", "11.", "12.", "13.", "14.", "15."]

/-- The inner `for _, prefix := range numMarkers` loop of
`parsePlanFromText` on one (already trimmed, non-empty) line: the first
marker that is a prefix of the line and leaves a non-empty trimmed
remainder yields that remainder (`break`); a marker that matches but
leaves an empty remainder does not stop the scan. -/
def numberedDesc (l : String) : Option String :=
  numMarkers.findSome? (fun p =>
    if goStartsWith l p then
      let d := goTrim (goDrop l p.length)
      if d = "" then none else some d
    else none)

/-- The bullet-point branch of `parsePlanFromText` on one trimmed line:
`strings.HasPrefix(line, "- ") || strings.HasPrefix(line, "* ")`, then
`strings.TrimSpace(line[2:])` if non-empty. -/
def bulletDesc (l : String) : Option String :=
  if goStartsWith l "- " || goStartsWith l "* " then
    let d := goTrim (goDrop l 2)
    if d = "" then none else some d
  else none

/-- Task descriptions contributed by one raw line of the plan text: the
line is trimmed, an empty line is skipped (`continue`), and then the
numbered-item scan and the bullet check each may append one task (the two
checks are sequential `if`s in the source, not an `else`). -/
def lineDescs (line : String) : List String :=
  let l := goTrim line
  if l = "" then []
  else (numberedDesc l).toList ++ (bulletDesc l).toList

/-- Assign ids `task-n`, `task-(n+1)`, … and status `pending` to a list of
descriptions, modelling the `taskID` counter of `parsePlanFromText`. -/
def numberTasks : List String → Nat → List Task
  | [], _ => []
  | d :: ds, n =>
    { id := "task-" ++ toString n, description := d, status := "pending",
      output := "", error := "", startedAt := none, completedAt := none }
      :: numberTasks ds (n + 1)

/-- The `parts := strings.Split(text, "PLAN:"); planText := parts[1];
lines := strings.Split(planText, "\n")` stage of `parsePlanFromText`:
when the marker occurs, `parts[1]` is the text between the first
occurrence of the marker and the following occurrence (or the end), and
the `len(parts) < 2` guard is the no-occurrence case (`none` here).
`now` in `parsePlanFromText` stands for the `time.Now()` used for
`CreatedAt`. -/
def planSection (text : String) : Option (List String) :=
  match afterFirst ("PLAN:").data text.data with
  | some afterMarker =>
    some ((splitNL (upToFirst ("PLAN:").data afterMarker)).map
            (fun cs => String.mk cs))
  | none => none

/-- Model of `(*Planner).parsePlanFromText` proper. -/
def parsePlanFromText (now : Nat) (text : String) : Option Plan :=
  if goContains text "PLAN:" then
    match planSection text with
    | some lines =>
      let tasks := numberTasks (lines.flatMap lineDescs) 1
      if tasks.length = 0 then none
      else some { tasks := tasks,
                  summary := "Plan with " ++ toString tasks.length ++ " tasks",
                  createdAt := now, isApproved := true }
    | none => none
  else none

/-! ## Completion-service interface (pkg/llm) -/

/-- Take the first `n` characters (Go slicing `s[:n]` on ASCII data). -/
def goTake (s : String) (n : Nat) : String :=
  ⟨s.data.take n⟩

/-- Outcome of one `CreateMessage` round trip, after `ParseContent`: either
the transport error, or the concatenated text blocks together with the
tool-use blocks. -/
inductive LLMResult where
  | fail (msg : String)
  | ok (text : String) (toolCalls : List ToolUseContent)
deriving DecidableEq, Repr

/-! ## Executor ((*Executor).ExecuteTask, pkg/agents) -/

/-- Oracles for one `ExecuteTask` call: the completion-service response and
the tool executor's answers at each round `i`, the clock value at round
`i`, and the `time.Now()` taken by `StartTask` on entry.  Quantifying over
these oracles ranges over every possible behaviour of the external
services. -/
structure ExecEnv where
  llm : Nat → LLMResult
  toolExec : Nat → ToolUseContent → Except String String
  clock : Nat → Nat
  startTime : Nat

/-- Outcome text of `output, err := Execute(...)`: the text fed onward is the output, or
`"Error: "` plus the error text when the call failed. -/
def toolOutput : Except String String → String
  | .ok o => o
  | .error e => "Error: " ++ e

/-- Did the tool call fail? (`isError := err != nil`). -/
def toolErred : Except String String → Bool
  | .ok _ => false
  | .error _ => true

/-- One `ToolResultContent` built by the executor loop for tool call `tc`
at round `i`: output capped at 10000 characters with the
`"\n... (output truncated)"` marker, error flag propagated. -/
def execToolResult (env : ExecEnv) (i : Nat) (tc : ToolUseContent) :
    ToolResultContent :=
  let r := env.toolExec i tc
  let output := toolOutput r
  let output :=
    if 10000 < output.length
    then goTake output 10000 ++ "\n... (output truncated)"
    else output
  { toolUseId := tc.id, content := output, isError := toolErred r }

/-- The executor's completion test on a no-tool-call response at round
`i`.  Faithful to the Go condition
`Contains(lower, "task completed") || Contains(lower, "task complete") ||
 Contains(lower, "successfully completed") || Contains(lower, "done") && i > 0`,
where `&&` binds tighter than `||`: only the `"done"` test is guarded by
`i > 0`. -/
def completionSignal (text : String) (i : Nat) : Bool :=
  goContains (goToLower text) ("task completed") ||
  goContains (goToLower text) ("task complete") ||
  goContains (goToLower text) ("successfully completed") ||
  (goContains (goToLower text) ("done") && decide (0 < i))

/-- The digest of previously completed tasks at the head of the executor's
opening message. -/
def completedDigest (ts : List Task) : String :=
  if 0 < ts.length then
    "Previously completed tasks:\n" ++
      ts.foldl (fun acc t => acc ++ "- " ++ t.description ++ "\n") "" ++ "\n"
  else ""

/-- Model of `(*Executor).buildTaskMessages`. -/
def buildTaskMessages (s : AgentState) (task : Task) : List AMessage :=
  [{ role := "user", content := .text (
      completedDigest s.completedTasks ++
      "Current task to implement:\n" ++ task.description ++
      "\n\nOriginal request context: " ++ s.originalRequest ++
      "\n\nPlease implement this task step by step. Use the available tools to:\n1. Read relevant files to understand the code\n2. Make necessary changes\n3. Test your changes if applicable\n4. Verify the implementation\n\nWhen the task is complete, say \"Task completed\" with a brief summary.") }]

/-- The nudge sent when the first round produced text but no tool calls. -/
def nudgeText : String :=
  "Please proceed with implementing this task using the available tools."

/-- The executor bound `maxIterations := 15`. -/
def maxIterations : Nat := 15

/-- The `for i := 0; i < maxIterations; i++` loop of `ExecuteTask`, with
`fuel` the number of rounds still allowed (`fuel = maxIterations - i`).
At `fuel = 0` the loop has exhausted its bound and the task is marked
completed with the fallback output. -/
def execLoop (env : ExecEnv) (taskID : String) (s : AgentState) :
    List AMessage → Nat → Nat → AgentState × Except String Unit
  | _, i, 0 =>
    (s.MarkTaskComplete (env.clock i) taskID
       ("Task completed (max iterations reached)"), .ok ())
  | msgs, i, fuel+1 =>
    match env.llm i with
    | .fail e =>
      (s.MarkTaskFailed (env.clock i) taskID e, .error ("LLM error: " ++ e))
    | .ok text toolCalls =>
      let msgs := msgs ++ [{ role := "assistant",
                             content := .response text toolCalls }]
      if 0 < toolCalls.length then
        let results := toolCalls.map (execToolResult env i)
        execLoop env taskID s
          (msgs ++ [{ role := "user", content := .toolResults results }])
          (i+1) fuel
      else if completionSignal text i then
        (s.MarkTaskComplete (env.clock i) taskID text, .ok ())
      else if i = 0 && text ≠ "" then
        execLoop env taskID s
          (msgs ++ [{ role := "user", content := .text nudgeText }])
          (i+1) fuel
      else
        execLoop env taskID s msgs (i+1) fuel

/-- Model of `(*Executor).ExecuteTask`: start the task, build the fresh
conversation, run the bounded loop. -/
def ExecuteTask (env : ExecEnv) (s : AgentState) (task : Task) :
    AgentState × Except String Unit :=
  let s1 := s.StartTask env.startTime task.id
  execLoop env task.id s1 (buildTaskMessages s1 task) 0 maxIterations

/-! ## Planner ((*Planner).GeneratePlan, pkg/agents) -/

/-- Oracles for one `GeneratePlan` call: completion-service responses for
rounds 0–4 of the exploration loop and for the final no-tools request
(round 5), tool-executor answers per round, and the `time.Now()` value
used by `parsePlanFromText` at round `i`. -/
structure PlanEnv where
  llm : Nat → LLMResult
  toolExec : Nat → ToolUseContent → Except String String
  now : Nat → Nat

/-- One `ToolResultContent` built by the planner's exploration loop for
tool call `tc` at round `i`: output capped at 5000 characters with the
`"\n... (truncated)"` marker; the planner never sets `IsError`. -/
def planToolResult (env : PlanEnv) (i : Nat) (tc : ToolUseContent) :
    ToolResultContent :=
  let output := toolOutput (env.toolExec i tc)
  let output :=
    if 5000 < output.length
    then goTake output 5000 ++ "\n... (truncated)"
    else output
  { toolUseId := tc.id, content := output, isError := false }

/-- Model of `(*Planner).buildContextMessages`. -/
def buildContextMessages (s : AgentState) : List AMessage :=
  [{ role := "user", content := .text (
      "Please analyze this codebase and create a detailed plan to complete the following request:\n\nREQUEST: " ++
      s.originalRequest ++
      "\n\nFirst, explore the codebase structure to understand:\n1. The project layout and key files\n2. The technology stack and dependencies\n3. Existing patterns and conventions\n4. Relevant code sections for this task\n\nThen provide a concrete, step-by-step plan to complete the request.") }]

/-- The forced final request issued after the exploration budget runs
out. -/
def planFinalRequestText : String :=
  "Based on your exploration, please provide a concrete plan in the format:\nPLAN:\n1. [Task description]\n2. [Task description]\n..."

/-- The `for i := 0; i < 5; i++` exploration loop of `GeneratePlan`
(`fuel = 5 - i`), followed at `fuel = 0` by the final no-tools request. -/
def planLoop (env : PlanEnv) (s : AgentState) :
    List AMessage → Nat → Nat → AgentState × Except String Unit
  | msgs, i, 0 =>
    let _ := msgs ++ [{ role := "user", content := .text planFinalRequestText }]
    match env.llm i with
    | .fail e => (s, .error ("failed to get final plan: " ++ e))
    | .ok text _ =>
      match parsePlanFromText (env.now i) text with
      | none => (s, .error ("failed to generate a valid plan"))
      | some plan => ({ s with plan := some plan }, .ok ())
  | msgs, i, fuel+1 =>
    match env.llm i with
    | .fail e => (s, .error ("failed to get LLM response: " ++ e))
    | .ok text toolCalls =>
      if 0 < toolCalls.length then
        let results := toolCalls.map (planToolResult env i)
        planLoop env s
          (msgs ++ [{ role := "assistant", content := .response text toolCalls },
                    { role := "user", content := .toolResults results }])
          (i+1) fuel
      else if goContains text "PLAN:" then
        match parsePlanFromText (env.now i) text with
        | some plan => ({ s with plan := some plan }, .ok ())
        | none => planLoop env s msgs (i+1) fuel
      else
        planLoop env s msgs (i+1) fuel

/-- Model of `(*Planner).GeneratePlan`. -/
def GeneratePlan (env : PlanEnv) (s : AgentState) :
    AgentState × Except String Unit :=
  planLoop env s (buildContextMessages s) 0 5

/-! ## Orchestrator ((*Orchestrator).Run, pkg/graph) -/

/-- Oracles for one whole run: whether `os.Stat` on the working directory
reports not-exist, the planner's oracles, and one executor oracle set per
task index. -/
structure RunEnv where
  dirMissing : Bool
  planEnv : PlanEnv
  execEnvs : Nat → ExecEnv

/-- The run report printed by `displaySummary`: per-status counts over the
plan's tasks plus the accumulated error strings. -/
structure RunSummary where
  completed : Nat
  failed : Nat
  pending : Nat
  errors : List String
deriving DecidableEq, Repr

/-- Number of tasks with the given status. -/
def statusCount (ts : List Task) (st : String) : Nat :=
  (ts.filter (fun t => t.status = st)).length

/-- The summary `displaySummary` computes from the final state. -/
def summaryOf (s : AgentState) : RunSummary :=
  match s.plan with
  | none => { completed := 0, failed := 0, pending := 0, errors := s.errors }
  | some p =>
    { completed := statusCount p.tasks ("completed"),
      failed := statusCount p.tasks ("failed"),
      pending := statusCount p.tasks ("pending"),
      errors := s.errors }

/-- The `for i := range o.state.Plan.Tasks` execution loop of `Run`: the
bound is the task count at loop entry, the task pointer is read from the
live plan each iteration, and an `ExecuteTask` error is discarded
(`continue`). -/
def runTasks (envs : Nat → ExecEnv) : AgentState → Nat → Nat → AgentState
  | s, _, 0 => s
  | s, i, fuel+1 =>
    match s.plan with
    | none => s
    | some p =>
      match p.tasks.get? i with
      | none => s
      | some t => runTasks envs (ExecuteTask (envs i) s t).1 (i+1) fuel

/-- Model of `(*Orchestrator).Run`: directory check, planning phase, plan
presence/non-emptiness check, execution phase, summary. -/
def Run (env : RunEnv) (s : AgentState) :
    AgentState × Except String RunSummary :=
  if env.dirMissing then
    (s, .error ("working directory does not exist: " ++ s.workingDir))
  else
    match GeneratePlan env.planEnv s with
    | (s1, .error e) => (s1, .error ("planning failed: " ++ e))
    | (s1, .ok _) =>
      match s1.plan with
      | none => (s1, .error ("no plan generated"))
      | some p =>
        if p.tasks.length = 0 then (s1, .error ("no plan generated"))
        else
          let s2 := runTasks env.execEnvs s1 0 p.tasks.length
          (s2, .ok (summaryOf s2))

/-! ## Spec-side definitions

These follow the specification's words, for comparison against the
embedded code. -/

/-- Follows the spec's description of plan-line recognition: a line is a
well-formed numbered item (one of the prefixes `"1."` through `"15."`) or
a bulleted item (`"- "` or `"* "`) whose prefix-stripped,
whitespace-trimmed remainder is non-empty; that remainder is the task
description.  Lines matching neither form yield nothing. -/
def specLineTask (line : String) : Option String :=
  let l := goTrim line
  match numMarkers.find? (fun p => goStartsWith l p) with
  | some p =>
    let d := goTrim (goDrop l p.length)
    if d = "" then none else some d
  | none =>
    if goStartsWith l "- " || goStartsWith l "* " then
      let d := goTrim (goDrop l 2)
      if d = "" then none else some d
    else none

/-- Allowed consecutive pair of observed task statuses along the spec's
walk `pending → in_progress → {completed | failed}`. -/
def stepOK (a b : String) : Prop :=
  a = b ∨ (a = "pending" ∧ b = "in_progress") ∨
  (a = "in_progress" ∧ (b = "completed" ∨ b = "failed"))

/-- Predicate: `completed_at` is set exactly when the status is terminal, for the
task with the given id (vacuous when no such task exists). -/
def caIffTerminal (s : AgentState) (tid : String) : Prop :=
  ∀ t, s.findTask tid = some t →
    (t.completedAt.isSome = true ↔ (t.status = "completed" ∨ t.status = "failed"))

/-- Round `i` of the executor loop neither errors nor accepts a
completion signal, so the loop continues. -/
def roundContinues (env : ExecEnv) (i : Nat) : Prop :=
  ∃ text tcs, env.llm i = .ok text tcs ∧
    (0 < tcs.length ∨ completionSignal text i = false)

/-! ## Helper lemmas: strings and the line classifier -/

lemma strStarts_iff (pat cs : List Char) :
    strStarts pat cs = true ↔ ∃ t, cs = pat ++ t := by
  induction pat generalizing cs with
  | nil => simp [strStarts]
  | cons a as ih =>
    cases cs with
    | nil => simp [strStarts]
    | cons b bs =>
      simp only [strStarts, Bool.and_eq_true, decide_eq_true_eq, ih,
        List.cons_append, List.cons.injEq]
      constructor
      · rintro ⟨rfl, t, rfl⟩; exact ⟨t, rfl, rfl⟩
      · rintro ⟨t, rfl, rfl⟩; exact ⟨rfl, t, rfl⟩

lemma goStartsWith_iff (s p : String) :
    goStartsWith s p = true ↔ ∃ t, s.data = p.data ++ t := by
  unfold goStartsWith; exact strStarts_iff p.data s.data

lemma numMarkers_nooverlap :
    ∀ p ∈ numMarkers, ∀ q ∈ numMarkers,
      strStarts p.data q.data = true → p = q := by decide

lemma numMarkers_head :
    ∀ p ∈ numMarkers,
      p.data ≠ [] ∧ p.data.head? ≠ some '-' ∧ p.data.head? ≠ some '*' := by
  decide

/-- At most one of the fifteen numbered markers can head a given line. -/
lemma numMarkers_unique (l : String) (p q : String)
    (hp : p ∈ numMarkers) (hq : q ∈ numMarkers)
    (hsp : goStartsWith l p = true) (hsq : goStartsWith l q = true) :
    p = q := by
  obtain ⟨t₁, h₁⟩ := (goStartsWith_iff l p).mp hsp
  obtain ⟨t₂, h₂⟩ := (goStartsWith_iff l q).mp hsq
  have h := h₁.symm.trans h₂
  rcases List.append_eq_append_iff.mp h with ⟨a, ha, _⟩ | ⟨c, hc, _⟩
  · exact numMarkers_nooverlap p hp q hq
      ((strStarts_iff p.data q.data).mpr ⟨a, ha⟩)
  · exact (numMarkers_nooverlap q hq p hp
      ((strStarts_iff q.data p.data).mpr ⟨c, hc⟩)).symm

/-- A line headed by a numbered marker cannot also be a bullet line. -/
lemma bulletDesc_eq_none_of_marker (l p : String) (hp : p ∈ numMarkers)
    (hs : goStartsWith l p = true) : bulletDesc l = none := by
  obtain ⟨t, ht⟩ := (goStartsWith_iff l p).mp hs
  obtain ⟨hne, hd, hst⟩ := numMarkers_head p hp
  cases hpd : p.data with
  | nil => exact absurd hpd hne
  | cons c cs =>
    rw [hpd] at hd hst ht
    simp only [List.head?_cons, ne_eq, Option.some.injEq] at hd hst
    unfold bulletDesc goStartsWith
    have hld : l.data = c :: (cs ++ t) := by rw [ht]; rfl
    have h1 : strStarts ("- ").data l.data = false := by
      rw [hld]
      simp only [strStarts]
      simp [show ('-' : Char) ≠ c from fun hcc => hd hcc.symm]
    have h2 : strStarts ("* ").data l.data = false := by
      rw [hld]
      simp only [strStarts]
      simp [show ('*' : Char) ≠ c from fun hcc => hst hcc.symm]
    rw [h1, h2]
    rfl

/-- Evaluating `findSome?` over a list where only (copies of) `p` can answer. -/
lemma findSome?_eq_of_unique {α β : Type} [DecidableEq α]
    (f : α → Option β) (xs : List α) (p : α)
    (hmem : p ∈ xs) (hothers : ∀ q ∈ xs, f q ≠ none → q = p) :
    xs.findSome? f = f p := by
  induction xs with
  | nil => cases hmem
  | cons x xs ih =>
    by_cases hx : f x = none
    · rcases List.mem_cons.mp hmem with rfl | hmem2
      · have hall : ∀ q ∈ xs, f q = none := by
          intro q hq
          by_contra hqn
          have := hothers q (List.mem_cons_of_mem _ hq) hqn
          subst this
          exact hqn hx
        simp [List.findSome?_cons, hx, List.findSome?_eq_none_iff.mpr hall]
      · simp [List.findSome?_cons, hx,
          ih hmem2 (fun q hq => hothers q (List.mem_cons_of_mem _ hq))]
    · have hxp : x = p := hothers x (List.mem_cons_self _ _) hx
      subst hxp
      cases hfx : f x with
      | none => exact absurd hfx hx
      | some b => simp [List.findSome?_cons, hfx]

/-- The per-line behaviour of the Go loop body agrees with the spec's
line classification: each raw line contributes exactly the task
description the spec assigns it (none for malformed lines). -/
lemma lineDescs_eq_spec (line : String) :
    lineDescs line = (specLineTask line).toList := by
  unfold lineDescs specLineTask
  by_cases hl : goTrim line = ""
  · rw [hl]
    have hfind : numMarkers.find? (fun p => goStartsWith "" p) = none := by
      decide
    simp [hfind, bulletDesc]
    decide
  · simp only [hl, if_neg hl]
    cases hfind : numMarkers.find? (fun p => goStartsWith (goTrim line) p) with
    | none =>
      have hall : ∀ p ∈ numMarkers, goStartsWith (goTrim line) p = false := by
        intro p hp
        have := List.find?_eq_none.mp hfind p hp
        simpa using this
      have hnum : numberedDesc (goTrim line) = none := by
        unfold numberedDesc
        apply List.findSome?_eq_none_iff.mpr
        intro p hp
        simp [hall p hp]
      rw [hnum]
      rfl
    | some p =>
      have hp : p ∈ numMarkers := List.mem_of_find?_eq_some hfind
      have hsp : goStartsWith (goTrim line) p = true := by
        have := List.find?_some hfind
        simpa using this
      have hnum : numberedDesc (goTrim line) =
          (if goStartsWith (goTrim line) p then
            (if goTrim (goDrop (goTrim line) p.length) = "" then none
             else some (goTrim (goDrop (goTrim line) p.length))) else none) := by
        unfold numberedDesc
        exact findSome?_eq_of_unique _ numMarkers p hp
          (fun q hq hqn => by
            by_cases hsq : goStartsWith (goTrim line) q = true
            · exact numMarkers_unique (goTrim line) q p hq hp hsq hsp
            · simp only [Bool.not_eq_true] at hsq
              rw [hsq] at hqn
              simp at hqn)
      rw [hnum, if_pos hsp, bulletDesc_eq_none_of_marker (goTrim line) p hp hsp]
      by_cases hd : goTrim (goDrop (goTrim line) p.length) = "" <;>
        simp [hd]

/-! ## Helper lemmas: task numbering and the state mutators -/

lemma flatMap_toList_eq_filterMap {α β : Type} (g : α → Option β)
    (xs : List α) :
    xs.flatMap (fun x => (g x).toList) = xs.filterMap g := by
  induction xs with
  | nil => rfl
  | cons x xs ih => cases h : g x <;> simp [h, ih]

lemma numberTasks_length (ds : List String) :
    ∀ n, (numberTasks ds n).length = ds.length := by
  induction ds with
  | nil => intro n; rfl
  | cons d ds ih => intro n; simp [numberTasks, ih]

lemma numberTasks_get? (ds : List String) :
    ∀ n k, (numberTasks ds n)[k]? = (ds[k]?).map (fun d =>
      ({ id := "task-" ++ toString (n + k), description := d,
         status := "pending", output := "", error := "",
         startedAt := none, completedAt := none } : Task)) := by
  induction ds with
  | nil => intro n k; simp [numberTasks]
  | cons d ds ih =>
    intro n k
    cases k with
    | zero => simp [numberTasks]
    | succ k =>
      simp only [numberTasks, List.getElem?_cons_succ]
      rw [ih (n+1) k]
      have h : n + 1 + k = n + (k + 1) := by omega
      rw [h]

lemma findAndUpdate_not_found (f : Task → Task) (tid : String)
    (ts : List Task) (h : ∀ t ∈ ts, t.id ≠ tid) :
    findAndUpdate f tid ts = (ts, none) := by
  induction ts with
  | nil => rfl
  | cons t ts ih =>
    have ht : ¬ t.id = tid := h t (List.mem_cons_self _ _)
    simp [findAndUpdate, ht,
      ih (fun u hu => h u (List.mem_cons_of_mem _ hu))]

lemma findAndUpdate_found (f : Task → Task) (tid : String)
    (pre : List Task) (tk : Task) (post : List Task)
    (hpre : ∀ t ∈ pre, t.id ≠ tid) (hid : tk.id = tid) :
    findAndUpdate f tid (pre ++ tk :: post) =
      (pre ++ f tk :: post, some (f tk)) := by
  induction pre with
  | nil => simp [findAndUpdate, hid]
  | cons t pre ih =>
    have ht : ¬ t.id = tid := hpre t (List.mem_cons_self _ _)
    simp [findAndUpdate, ht,
      ih (fun u hu => hpre u (List.mem_cons_of_mem _ hu))]

lemma find?_first (tid : String) (pre : List Task) (tk : Task)
    (post : List Task)
    (hpre : ∀ t ∈ pre, t.id ≠ tid) (hid : tk.id = tid) :
    (pre ++ tk :: post).find? (fun t => t.id = tid) = some tk := by
  induction pre with
  | nil => simp [List.find?_cons, hid]
  | cons t pre ih =>
    have ht : ¬ t.id = tid := hpre t (List.mem_cons_self _ _)
    simp [List.find?_cons, ht,
      ih (fun u hu => hpre u (List.mem_cons_of_mem _ hu))]

/-- The task value `MarkTaskComplete` writes back. -/
def completedTask (tk : Task) (now : Nat) (out : String) : Task :=
  { tk with status := "completed", output := out, completedAt := some now }

/-- The task value `MarkTaskFailed` writes back. -/
def failedTask (tk : Task) (now : Nat) (err : String) : Task :=
  { tk with status := "failed", error := err, completedAt := some now }

/-- The task value `StartTask` writes back. -/
def startedTask (tk : Task) (now : Nat) : Task :=
  { tk with status := "in_progress", startedAt := some now }

lemma MarkTaskComplete_no_plan (s : AgentState) (now : Nat)
    (tid out : String) (h : s.plan = none) :
    s.MarkTaskComplete now tid out = s := by
  simp [AgentState.MarkTaskComplete, h]

lemma MarkTaskFailed_no_plan (s : AgentState) (now : Nat)
    (tid err : String) (h : s.plan = none) :
    s.MarkTaskFailed now tid err = s := by
  simp [AgentState.MarkTaskFailed, h]

lemma StartTask_no_plan (s : AgentState) (now : Nat) (tid : String)
    (h : s.plan = none) :
    s.StartTask now tid = s := by
  simp [AgentState.StartTask, h]

lemma MarkTaskComplete_not_found (s : AgentState) (now : Nat)
    (tid out : String) (p : Plan)
    (hp : s.plan = some p) (h : ∀ t ∈ p.tasks, t.id ≠ tid) :
    s.MarkTaskComplete now tid out = s := by
  simp only [AgentState.MarkTaskComplete, hp,
    findAndUpdate_not_found _ _ _ h]
  have h1 : ({ p with tasks := p.tasks } : Plan) = p := rfl
  rw [h1, ← hp]

lemma MarkTaskFailed_not_found (s : AgentState) (now : Nat)
    (tid err : String) (p : Plan)
    (hp : s.plan = some p) (h : ∀ t ∈ p.tasks, t.id ≠ tid) :
    s.MarkTaskFailed now tid err = s := by
  simp only [AgentState.MarkTaskFailed, hp,
    findAndUpdate_not_found _ _ _ h]
  have h1 : ({ p with tasks := p.tasks } : Plan) = p := rfl
  rw [h1, ← hp]

lemma StartTask_not_found (s : AgentState) (now : Nat) (tid : String)
    (p : Plan)
    (hp : s.plan = some p) (h : ∀ t ∈ p.tasks, t.id ≠ tid) :
    s.StartTask now tid = s := by
  simp only [AgentState.StartTask, hp, findAndUpdate_not_found _ _ _ h]
  have h1 : ({ p with tasks := p.tasks } : Plan) = p := rfl
  rw [h1, ← hp]

lemma MarkTaskComplete_found (s : AgentState) (now : Nat)
    (tid out : String) (p : Plan) (pre : List Task) (tk : Task)
    (post : List Task)
    (hp : s.plan = some p) (hdec : p.tasks = pre ++ tk :: post)
    (hpre : ∀ t ∈ pre, t.id ≠ tid) (hid : tk.id = tid) :
    s.MarkTaskComplete now tid out =
      { s with plan := some { p with tasks := pre ++ completedTask tk now out :: post }, completedTasks := s.completedTasks ++ [completedTask tk now out] } := by
  simp [AgentState.MarkTaskComplete, hp, hdec, completedTask,
    findAndUpdate_found _ _ _ _ _ hpre hid]

lemma MarkTaskFailed_found (s : AgentState) (now : Nat)
    (tid err : String) (p : Plan) (pre : List Task) (tk : Task)
    (post : List Task)
    (hp : s.plan = some p) (hdec : p.tasks = pre ++ tk :: post)
    (hpre : ∀ t ∈ pre, t.id ≠ tid) (hid : tk.id = tid) :
    s.MarkTaskFailed now tid err =
      { s with plan := some { p with tasks := pre ++ failedTask tk now err :: post }, errors := s.errors ++ [err] } := by
  simp [AgentState.MarkTaskFailed, hp, hdec, failedTask,
    findAndUpdate_found _ _ _ _ _ hpre hid]

lemma StartTask_found (s : AgentState) (now : Nat) (tid : String)
    (p : Plan) (pre : List Task) (tk : Task) (post : List Task)
    (hp : s.plan = some p) (hdec : p.tasks = pre ++ tk :: post)
    (hpre : ∀ t ∈ pre, t.id ≠ tid) (hid : tk.id = tid) :
    s.StartTask now tid =
      { s with plan := some { p with tasks := pre ++ startedTask tk now :: post }, currentTask := some (startedTask tk now) } := by
  simp [AgentState.StartTask, hp, hdec, startedTask,
    findAndUpdate_found _ _ _ _ _ hpre hid]

/-! ## Helper lemmas: the executor loop -/

lemma execLoop_zero (env : ExecEnv) (tid : String) (s : AgentState)
    (msgs : List AMessage) (i : Nat) :
    execLoop env tid s msgs i 0 =
      (s.MarkTaskComplete (env.clock i) tid
        ("Task completed (max iterations reached)"), .ok ()) := rfl

lemma execLoop_fail (env : ExecEnv) (tid : String) (s : AgentState)
    (msgs : List AMessage) (i fuel : Nat) (e : String)
    (h : env.llm i = .fail e) :
    execLoop env tid s msgs i (fuel+1) =
      (s.MarkTaskFailed (env.clock i) tid e,
       .error ("LLM error: " ++ e)) := by
  simp [execLoop, h]

lemma execLoop_tools (env : ExecEnv) (tid : String) (s : AgentState)
    (msgs : List AMessage) (i fuel : Nat) (text : String)
    (tcs : List ToolUseContent)
    (h : env.llm i = .ok text tcs) (htcs : 0 < tcs.length) :
    execLoop env tid s msgs i (fuel+1) =
      execLoop env tid s
        (msgs ++ [{ role := "assistant", content := .response text tcs },
                  { role := "user",
                    content := .toolResults (tcs.map (execToolResult env i)) }])
        (i+1) fuel := by
  simp [execLoop, h, htcs]

lemma execLoop_complete (env : ExecEnv) (tid : String) (s : AgentState)
    (msgs : List AMessage) (i fuel : Nat) (text : String)
    (h : env.llm i = .ok text [])
    (hsig : completionSignal text i = true) :
    execLoop env tid s msgs i (fuel+1) =
      (s.MarkTaskComplete (env.clock i) tid text, .ok ()) := by
  simp [execLoop, h, hsig]

lemma execLoop_continue (env : ExecEnv) (tid : String) (s : AgentState)
    (msgs : List AMessage) (i fuel : Nat) (text : String)
    (h : env.llm i = .ok text [])
    (hsig : completionSignal text i = false) :
    ∃ ms, execLoop env tid s msgs i (fuel+1) =
      execLoop env tid s ms (i+1) fuel := by
  by_cases hc : i = 0 ∧ ¬ text = ""
  · obtain ⟨hi, ht⟩ := hc
    subst hi
    exact ⟨msgs ++ [{ role := "assistant", content := .response text [] },
                    { role := "user", content := .text nudgeText }],
      by simp [execLoop, h, hsig, ht]⟩
  · rw [not_and_or] at hc
    rcases hc with hi | ht
    · exact ⟨msgs ++ [{ role := "assistant", content := .response text [] }],
        by simp [execLoop, h, hsig, hi]⟩
    · rw [not_not] at ht
      subst ht
      exact ⟨msgs ++ [{ role := "assistant", content := .response "" [] }],
        by simp [execLoop, h, hsig]⟩

/-- Over any number of rounds, the executor loop never touches the agent
state until its final step, which is exactly one `MarkTaskComplete` (with
success returned) or one `MarkTaskFailed` (with an error returned). -/
lemma execLoop_final (env : ExecEnv) (tid : String) :
    ∀ (fuel i : Nat) (s : AgentState) (msgs : List AMessage),
      (∃ k out, execLoop env tid s msgs i fuel =
        (s.MarkTaskComplete (env.clock k) tid out, .ok ())) ∨
      (∃ k e, execLoop env tid s msgs i fuel =
        (s.MarkTaskFailed (env.clock k) tid e,
         .error ("LLM error: " ++ e))) := by
  intro fuel
  induction fuel with
  | zero =>
    intro i s msgs
    exact Or.inl ⟨i, "Task completed (max iterations reached)", rfl⟩
  | succ fuel ih =>
    intro i s msgs
    cases hllm : env.llm i with
    | fail e =>
      exact Or.inr ⟨i, e, execLoop_fail env tid s msgs i fuel e hllm⟩
    | ok text tcs =>
      cases tcs with
      | nil =>
        by_cases hsig : completionSignal text i = true
        · exact Or.inl ⟨i, text,
            execLoop_complete env tid s msgs i fuel text hllm hsig⟩
        · have hs : completionSignal text i = false :=
            Bool.not_eq_true _ ▸ (by simpa using hsig)
          obtain ⟨ms, hms⟩ :=
            execLoop_continue env tid s msgs i fuel text hllm hs
          rw [hms]
          exact ih (i+1) s ms
      | cons a as =>
        rw [execLoop_tools env tid s msgs i fuel text (a :: as) hllm
          (by simp)]
        exact ih (i+1) s _

/-- If every round up to exhaustion continues, the loop ends by marking
the task completed with the fallback output. -/
lemma execLoop_exhaust (env : ExecEnv) (tid : String) :
    ∀ (fuel i : Nat) (s : AgentState) (msgs : List AMessage),
      (∀ j, i ≤ j → j < i + fuel → roundContinues env j) →
      execLoop env tid s msgs i fuel =
        (s.MarkTaskComplete (env.clock (i + fuel)) tid
          ("Task completed (max iterations reached)"), .ok ()) := by
  intro fuel
  induction fuel with
  | zero => intro i s msgs _; simp [execLoop]
  | succ fuel ih =>
    intro i s msgs hcont
    obtain ⟨text, tcs, hllm, hor⟩ := hcont i (le_refl i) (by omega)
    have harith : i + 1 + fuel = i + (fuel + 1) := by omega
    cases tcs with
    | cons a as =>
      rw [execLoop_tools env tid s msgs i fuel text (a :: as) hllm (by simp)]
      rw [ih (i+1) s _ (fun j h1 h2 => hcont j (by omega) (by omega))]
      rw [harith]
    | nil =>
      have hsig : completionSignal text i = false := by
        rcases hor with htcs | hsig
        · simp at htcs
        · exact hsig
      obtain ⟨ms, hms⟩ :=
        execLoop_continue env tid s msgs i fuel text hllm hsig
      rw [hms]
      rw [ih (i+1) s ms (fun j h1 h2 => hcont j (by omega) (by omega))]
      rw [harith]

/-- Whatever happens inside the loop, the plan after `execLoop` is the
plan before it with exactly the first task matching `tid` rewritten to a
terminal task (same id, `completed_at` set). -/
lemma execLoop_plan_shape (env : ExecEnv) (tid : String) (s1 : AgentState)
    (p1 : Plan) (pre : List Task) (tk1 : Task) (post : List Task)
    (msgs : List AMessage) (i fuel : Nat)
    (hp : s1.plan = some p1) (hdec : p1.tasks = pre ++ tk1 :: post)
    (hpre : ∀ t ∈ pre, t.id ≠ tid) (hid : tk1.id = tid) :
    ∃ tk2 : Task, tk2.id = tk1.id ∧
      (tk2.status = "completed" ∨ tk2.status = "failed") ∧
      tk2.completedAt.isSome = true ∧
      (execLoop env tid s1 msgs i fuel).1.plan =
        some { p1 with tasks := pre ++ tk2 :: post } := by
  obtain ⟨k, out, hfin⟩ | ⟨k, e, hfin⟩ := execLoop_final env tid fuel i s1 msgs
  · refine ⟨completedTask tk1 (env.clock k) out, rfl, Or.inl rfl, rfl, ?_⟩
    rw [hfin,
      MarkTaskComplete_found s1 (env.clock k) tid out p1 pre tk1 post hp hdec hpre hid]
  · refine ⟨failedTask tk1 (env.clock k) e, rfl, Or.inr rfl, rfl, ?_⟩
    rw [hfin,
      MarkTaskFailed_found s1 (env.clock k) tid e p1 pre tk1 post hp hdec hpre hid]

/-- One `ExecuteTask` call rewrites exactly the first task matching the
given task's id to a terminal task and leaves the rest of the plan's task
list in place. -/
lemma ExecuteTask_shape (env : ExecEnv) (s : AgentState) (task : Task)
    (p : Plan) (pre : List Task) (tk : Task) (post : List Task)
    (hp : s.plan = some p) (hdec : p.tasks = pre ++ tk :: post)
    (hpre : ∀ t ∈ pre, t.id ≠ task.id) (hid : tk.id = task.id) :
    ∃ tk2 : Task, tk2.id = tk.id ∧
      (tk2.status = "completed" ∨ tk2.status = "failed") ∧
      tk2.completedAt.isSome = true ∧
      (ExecuteTask env s task).1.plan =
        some { p with tasks := pre ++ tk2 :: post } := by
  have hstart := StartTask_found s env.startTime task.id p pre tk post hp hdec hpre hid
  have hp1 : (s.StartTask env.startTime task.id).plan =
      some { p with tasks := pre ++ startedTask tk env.startTime :: post } := by
    rw [hstart]
  obtain ⟨tk2, hid2, hstat, hca, hplan⟩ :=
    execLoop_plan_shape env task.id (s.StartTask env.startTime task.id)
      { p with tasks := pre ++ startedTask tk env.startTime :: post }
      pre (startedTask tk env.startTime) post
      (buildTaskMessages (s.StartTask env.startTime task.id) task)
      0 maxIterations hp1 rfl hpre hid
  refine ⟨tk2, hid2, hstat, hca, ?_⟩
  show (execLoop env task.id (s.StartTask env.startTime task.id)
    (buildTaskMessages (s.StartTask env.startTime task.id) task)
    0 maxIterations).1.plan = _
  rw [hplan]

/-! ## Helper lemmas: plan extraction outcomes -/

lemma lineDescs_ne_empty (l d : String) (h : d ∈ lineDescs l) :
    ¬ d = "" := by
  unfold lineDescs at h
  by_cases hl : goTrim l = ""
  · simp [hl] at h
  · simp only [if_neg hl, List.mem_append, Option.mem_toList,
      Option.mem_def] at h
    rcases h with hn | hb
    · obtain ⟨q, _, hq⟩ := List.exists_of_findSome?_eq_some hn
      by_cases hs : goStartsWith (goTrim l) q = true
      · simp only [hs, if_true] at hq
        by_cases hd : goTrim (goDrop (goTrim l) q.length) = "" <;>
          simp [hd] at hq
        subst hq
        exact hd
      · simp only [Bool.not_eq_true] at hs
        simp [hs] at hq
    · unfold bulletDesc at hb
      by_cases hs : (goStartsWith (goTrim l) "- " || goStartsWith (goTrim l) "* ") = true
      · simp only [hs, if_true] at hb
        by_cases hd : goTrim (goDrop (goTrim l) 2) = "" <;> simp [hd] at hb
        subst hb
        exact hd
      · simp only [Bool.not_eq_true] at hs
        simp [hs] at hb

lemma numberTasks_mem (ds : List String) :
    ∀ n t, t ∈ numberTasks ds n →
      t.status = "pending" ∧ t.description ∈ ds := by
  induction ds with
  | nil => intro n t h; cases h
  | cons d ds ih =>
    intro n t h
    rcases List.mem_cons.mp h with rfl | h2
    · exact ⟨rfl, List.mem_cons_self _ _⟩
    · obtain ⟨h1, h3⟩ := ih (n+1) t h2
      exact ⟨h1, List.mem_cons_of_mem _ h3⟩

/-- A plan returned by `parsePlanFromText` is never empty, and all of its
tasks are `pending` with non-empty descriptions. -/
lemma parsePlanFromText_some (now : Nat) (text : String) (pl : Plan)
    (h : parsePlanFromText now text = some pl) :
    0 < pl.tasks.length ∧
      ∀ t ∈ pl.tasks, t.status = "pending" ∧ ¬ t.description = "" := by
  unfold parsePlanFromText at h
  by_cases hc : goContains text "PLAN:" = true
  · rw [if_pos hc] at h
    cases hsec : planSection text with
    | none => rw [hsec] at h; cases h
    | some lines =>
      rw [hsec] at h
      by_cases hz : (numberTasks (lines.flatMap lineDescs) 1).length = 0
      · simp [hz] at h
      · simp only [hz, if_false, if_neg hz, Option.some.injEq] at h
        subst h
        refine ⟨Nat.pos_of_ne_zero hz, ?_⟩
        intro t ht
        obtain ⟨h1, h2⟩ := numberTasks_mem (lines.flatMap lineDescs) 1 t ht
        obtain ⟨l, _, hdl⟩ := List.mem_flatMap.mp h2
        exact ⟨h1, lineDescs_ne_empty l t.description hdl⟩
  · simp only [Bool.not_eq_true] at hc
    rw [hc] at h
    cases h

/-- Lemma case split: `planLoop` either reports an error with the state untouched, or
installs exactly one non-empty plan. -/
lemma planLoop_cases (env : PlanEnv) :
    ∀ (fuel i : Nat) (s : AgentState) (msgs : List AMessage),
      (∃ e, planLoop env s msgs i fuel = (s, .error e)) ∨
      (∃ pl, planLoop env s msgs i fuel = ({ s with plan := some pl }, .ok ())
        ∧ 0 < pl.tasks.length
        ∧ ∀ t ∈ pl.tasks, t.status = "pending" ∧ ¬ t.description = "") := by
  intro fuel
  induction fuel with
  | zero =>
    intro i s msgs
    cases hllm : env.llm i with
    | fail e =>
      exact Or.inl ⟨"failed to get final plan: " ++ e, by simp [planLoop, hllm]⟩
    | ok text tcs =>
      cases hp : parsePlanFromText (env.now i) text with
      | none =>
        exact Or.inl ⟨"failed to generate a valid plan", by simp [planLoop, hllm, hp]⟩
      | some pl =>
        obtain ⟨h1, h2⟩ := parsePlanFromText_some (env.now i) text pl hp
        exact Or.inr ⟨pl, by simp [planLoop, hllm, hp], h1, h2⟩
  | succ fuel ih =>
    intro i s msgs
    cases hllm : env.llm i with
    | fail e =>
      exact Or.inl ⟨"failed to get LLM response: " ++ e, by simp [planLoop, hllm]⟩
    | ok text tcs =>
      by_cases htcs : 0 < tcs.length
      · have hstep : planLoop env s msgs i (fuel+1) =
            planLoop env s
              (msgs ++ [{ role := "assistant", content := .response text tcs },
                        { role := "user",
                          content := .toolResults (tcs.map (planToolResult env i)) }])
              (i+1) fuel := by
          simp [planLoop, hllm, htcs]
        rw [hstep]
        exact ih (i+1) s _
      · by_cases hcont : goContains text "PLAN:" = true
        · cases hp : parsePlanFromText (env.now i) text with
          | none =>
            have hstep : planLoop env s msgs i (fuel+1) =
                planLoop env s msgs (i+1) fuel := by
              simp [planLoop, hllm, htcs, hcont, hp]
            rw [hstep]
            exact ih (i+1) s msgs
          | some pl =>
            obtain ⟨h1, h2⟩ := parsePlanFromText_some (env.now i) text pl hp
            exact Or.inr ⟨pl, by simp [planLoop, hllm, htcs, hcont, hp], h1, h2⟩
        · have hc : goContains text "PLAN:" = false := by
            simpa using hcont
          have hstep : planLoop env s msgs i (fuel+1) =
              planLoop env s msgs (i+1) fuel := by
            simp [planLoop, hllm, htcs, hc]
          rw [hstep]
          exact ih (i+1) s msgs

/-! ## Helper lemmas: the orchestrator's execution loop -/

/-- After `runTasks` has walked all remaining indices, every visited task
is terminal and the tasks before the start index are untouched; task ids
are preserved throughout. -/
lemma runTasks_all_terminal (envs : Nat → ExecEnv) :
    ∀ (fuel i : Nat) (s : AgentState) (p : Plan),
      s.plan = some p → (p.tasks.map Task.id).Nodup →
      i + fuel = p.tasks.length →
      ∃ p2 : Plan, (runTasks envs s i fuel).plan = some p2 ∧
        p2.tasks.map Task.id = p.tasks.map Task.id ∧
        (∀ j, j < i → p2.tasks[j]? = p.tasks[j]?) ∧
        (∀ j tj, i ≤ j → p2.tasks[j]? = some tj →
          tj.status = "completed" ∨ tj.status = "failed") := by
  intro fuel
  induction fuel with
  | zero =>
    intro i s p hp hnd hlen
    refine ⟨p, by simp [runTasks]; exact hp, rfl, fun j _ => rfl, ?_⟩
    intro j tj hij hjt
    obtain ⟨hjlt, _⟩ := List.getElem?_eq_some_iff.mp hjt
    omega
  | succ fuel ih =>
    intro i s p hp hnd hlen
    have hi : i < p.tasks.length := by omega
    have htk : p.tasks[i]? = some (p.tasks[i]) := List.getElem?_eq_getElem hi
    have hdec : p.tasks = p.tasks.take i ++ p.tasks[i] :: p.tasks.drop (i+1) := by
      conv_lhs => rw [← List.take_append_drop i p.tasks]
      rw [List.drop_eq_getElem_cons hi]
    have hpre : ∀ t ∈ p.tasks.take i, t.id ≠ (p.tasks[i]).id := by
      have hmap := congrArg (List.map Task.id) hdec
      simp only [List.map_append, List.map_cons] at hmap
      rw [hmap] at hnd
      have hnin := (List.nodup_cons.mp (List.nodup_middle.mp hnd)).1
      intro t ht heq
      apply hnin
      rw [List.mem_append]
      exact Or.inl (heq ▸ List.mem_map_of_mem Task.id ht)
    have hstep : runTasks envs s i (fuel+1) =
        runTasks envs (ExecuteTask (envs i) s (p.tasks[i])).1 (i+1) fuel := by
      simp [runTasks, hp, htk]
    obtain ⟨tk2, hid2, hterm, _, hplan⟩ :=
      ExecuteTask_shape (envs i) s (p.tasks[i]) p
        (p.tasks.take i) (p.tasks[i]) (p.tasks.drop (i+1)) hp hdec hpre rfl
    have hlentake : (p.tasks.take i).length = i := by
      rw [List.length_take]
      omega
    have hlen1 : (p.tasks.take i ++ tk2 :: p.tasks.drop (i+1)).length =
        p.tasks.length := by
      have := congrArg List.length hdec
      simp only [List.length_append, List.length_cons] at this ⊢
      omega
    have hids : (p.tasks.take i ++ tk2 :: p.tasks.drop (i+1)).map Task.id =
        p.tasks.map Task.id := by
      have h := congrArg (List.map Task.id) hdec
      simp only [List.map_append, List.map_cons] at h
      rw [List.map_append, List.map_cons, hid2, h]
    have hget1 : ∀ j, j < i →
        (p.tasks.take i ++ tk2 :: p.tasks.drop (i+1))[j]? = p.tasks[j]? := by
      intro j hj
      rw [List.getElem?_append_left (by omega),
        List.getElem?_take_of_lt hj]
    have hgeti : (p.tasks.take i ++ tk2 :: p.tasks.drop (i+1))[i]? = some tk2 := by
      rw [List.getElem?_append_right (by omega)]
      simp [hlentake]
    obtain ⟨p2, h2plan, h2ids, h2keep, h2term⟩ :=
      ih (i+1) (ExecuteTask (envs i) s (p.tasks[i])).1
        { p with tasks := p.tasks.take i ++ tk2 :: p.tasks.drop (i+1) }
        hplan (by simpa [hids] using hnd) (by simp only [hlen1]; omega)
    refine ⟨p2, by rw [hstep]; exact h2plan, by rw [h2ids]; exact hids, ?_, ?_⟩
    · intro j hj
      rw [h2keep j (by omega)]
      exact hget1 j hj
    · intro j tj hij h2jt
      by_cases hji : j = i
      · subst hji
        rw [h2keep j (by omega)] at h2jt
        rw [hgeti] at h2jt
        cases h2jt
        exact hterm
      · exact h2term j tj (by omega) h2jt

/-! ## Concrete fixtures for witnesses and counterexamples -/

def tlA : Task :=
  { id := "task-1", description := "a", status := "pending", output := "",
    error := "", startedAt := none, completedAt := none }

def tlB : Task :=
  { id := "task-2", description := "b", status := "pending", output := "",
    error := "", startedAt := none, completedAt := none }

def planW : Plan :=
  { tasks := [tlA, tlB], summary := "Plan with 2 tasks", createdAt := 0,
    isApproved := true }

def stW : AgentState :=
  { NewAgentState "/w" "req" with plan := some planW }

/-! ## Claims -/

/-- C10: `StartTask`, `MarkTaskComplete` and `MarkTaskFailed` are total
no-ops when Run State holds no Plan or when no task in the Plan has the
given id — every field of Run State, including the error list and the
completed-task list, is left unchanged and no panic or error occurs — and
when a matching task exists each operation rewrites exactly the first
task with that id. -/
theorem mutators_no_op_or_first_match (s : AgentState) (now : Nat)
    (tid out err : String) :
    (s.plan = none →
      s.MarkTaskComplete now tid out = s ∧
      s.MarkTaskFailed now tid err = s ∧
      s.StartTask now tid = s) ∧
    (∀ p, s.plan = some p → (∀ t ∈ p.tasks, t.id ≠ tid) →
      s.MarkTaskComplete now tid out = s ∧
      s.MarkTaskFailed now tid err = s ∧
      s.StartTask now tid = s) ∧
    (∀ p pre tk post, s.plan = some p → p.tasks = pre ++ tk :: post →
      (∀ t ∈ pre, t.id ≠ tid) → tk.id = tid →
      s.MarkTaskComplete now tid out =
        { s with plan := some { p with tasks := pre ++ completedTask tk now out :: post }, completedTasks := s.completedTasks ++ [completedTask tk now out] } ∧
      s.MarkTaskFailed now tid err =
        { s with plan := some { p with tasks := pre ++ failedTask tk now err :: post }, errors := s.errors ++ [err] } ∧
      s.StartTask now tid =
        { s with plan := some { p with tasks := pre ++ startedTask tk now :: post }, currentTask := some (startedTask tk now) }) := by
  refine ⟨?_, ?_, ?_⟩
  · intro h
    exact ⟨MarkTaskComplete_no_plan s now tid out h,
      MarkTaskFailed_no_plan s now tid err h,
      StartTask_no_plan s now tid h⟩
  · intro p hp h
    exact ⟨MarkTaskComplete_not_found s now tid out p hp h,
      MarkTaskFailed_not_found s now tid err p hp h,
      StartTask_not_found s now tid p hp h⟩
  · intro p pre tk post hp hdec hpre hid
    exact ⟨MarkTaskComplete_found s now tid out p pre tk post hp hdec hpre hid,
      MarkTaskFailed_found s now tid err p pre tk post hp hdec hpre hid,
      StartTask_found s now tid p pre tk post hp hdec hpre hid⟩

theorem mutators_no_op_or_first_match_witness :
    stW.MarkTaskFailed 9 ("task-9") ("boom") = stW ∧
    stW.MarkTaskComplete 9 ("task-2") ("out") =
      { stW with plan := some { planW with tasks := [tlA] ++ completedTask tlB 9 ("out") :: [] }, completedTasks := stW.completedTasks ++ [completedTask tlB 9 ("out")] } :=
  ⟨((mutators_no_op_or_first_match stW 9 ("task-9") ("o") ("boom")).2.1
      planW rfl (by decide)).2.1,
   ((mutators_no_op_or_first_match stW 9 ("task-2") ("out") ("e")).2.2
      planW [tlA] tlB [] rfl rfl (by decide) rfl).1⟩

/-- C2 (amended): extraction returns no plan (`nil`) both for input
without the marker and for input with the marker but zero recognized
tasks — the same failure value, not a distinct report; in neither case is
a Plan object returned (in particular never a zero-task Plan), and no
placeholder task is ever fabricated: every returned plan is non-empty and
all its tasks are `pending` with non-empty descriptions taken from the
input. -/
theorem plan_extraction_failure_modes (now : Nat) (text : String) :
    (goContains text ("PLAN:") = false → parsePlanFromText now text = none) ∧
    (∀ pl, parsePlanFromText now text = some pl →
      0 < pl.tasks.length ∧
      ∀ t ∈ pl.tasks, t.status = "pending" ∧ ¬ t.description = "") := by
  constructor
  · intro h
    simp [parsePlanFromText, h]
  · intro pl h
    exact parsePlanFromText_some now text pl h

theorem plan_extraction_failure_modes_witness :
    parsePlanFromText 0 ("no marker here") = none :=
  (plan_extraction_failure_modes 0 ("no marker here")).1 (by decide)

/-- C2 counterexample: the code does not report a failure distinct from
"no plan present" — an input without the marker and an input with the
marker but zero recognizable tasks produce the very same result, `nil`
(here `none`). -/
theorem plan_extraction_failure_not_distinct :
    goContains ("no marker here") ("PLAN:") = false ∧
    goContains ("PLAN:\njust prose, no items") ("PLAN:") = true ∧
    parsePlanFromText 0 ("PLAN:\njust prose, no items") = none ∧
    parsePlanFromText 0 ("no marker here") =
      parsePlanFromText 0 ("PLAN:\njust prose, no items") := by
  exact ⟨by decide, by decide, by decide, by decide⟩

/-- C3: for every input text containing the plan marker followed by lines
of which N are well-formed numbered or bulleted items (per
`specLineTask`, which follows the spec's wording) and the rest malformed,
1 ≤ N ≤ 15, extraction returns a plan with exactly N tasks whose ids are
`task-1` … `task-N` in source order, whose statuses are all `pending`,
and whose descriptions are the prefix-stripped, whitespace-trimmed
remainders; malformed lines are silently skipped. -/
theorem plan_extraction_wellformed (now : Nat) (text : String)
    (lines : List String)
    (hmarker : goContains text ("PLAN:") = true)
    (hsec : planSection text = some lines)
    (hn1 : 1 ≤ (lines.filterMap specLineTask).length)
    (hn15 : (lines.filterMap specLineTask).length ≤ 15) :
    ∃ pl, parsePlanFromText now text = some pl ∧
      pl.tasks.length = (lines.filterMap specLineTask).length ∧
      ∀ k : Nat, pl.tasks[k]? = ((lines.filterMap specLineTask)[k]?).map
        (fun d => ({ id := "task-" ++ toString (k+1), description := d,
                     status := "pending", output := "", error := "",
                     startedAt := none, completedAt := none } : Task)) := by
  have hdesc : lines.flatMap lineDescs = lines.filterMap specLineTask := by
    rw [show lineDescs = fun l => (specLineTask l).toList from
      funext lineDescs_eq_spec]
    exact flatMap_toList_eq_filterMap specLineTask lines
  have hlen : (numberTasks (lines.flatMap lineDescs) 1).length =
      (lines.filterMap specLineTask).length := by
    rw [numberTasks_length, hdesc]
  have hnz : ¬ (numberTasks (lines.flatMap lineDescs) 1).length = 0 := by
    omega
  refine ⟨{ tasks := numberTasks (lines.flatMap lineDescs) 1,
            summary := "Plan with " ++
              toString (numberTasks (lines.flatMap lineDescs) 1).length ++
              " tasks",
            createdAt := now, isApproved := true }, ?_, hlen, ?_⟩
  · simp [parsePlanFromText, hmarker, hsec, hnz]
  intro k
  show (numberTasks (lines.flatMap lineDescs) 1)[k]? = _
  rw [numberTasks_get? (lines.flatMap lineDescs) 1 k, hdesc]
  have h : 1 + k = k + 1 := by omega
  rw [h]

theorem plan_extraction_wellformed_witness :
    ∃ pl, parsePlanFromText 0 ("PLAN:\n2. alpha\nskip me\n- beta") = some pl ∧
      pl.tasks.length = 2 ∧
      ∀ k : Nat, pl.tasks[k]? =
        ((["", "2. alpha", "skip me", "- beta"].filterMap specLineTask)[k]?).map
          (fun d => ({ id := "task-" ++ toString (k+1), description := d,
                       status := "pending", output := "", error := "",
                       startedAt := none, completedAt := none } : Task)) := by
  obtain ⟨pl, h1, h2, h3⟩ := plan_extraction_wellformed 0
    ("PLAN:\n2. alpha\nskip me\n- beta") ["", "2. alpha", "skip me", "- beta"]
    (by decide) (by decide) (by decide) (by decide)
  exact ⟨pl, h1, by rw [h2]; decide, h3⟩

/-- C7: `GeneratePlan` mutates Run State only by installing a Plan, and
only on success: on error the state is returned exactly as given (so a
previously absent Plan stays absent and no field changes); on success
exactly the Plan field is installed, with a complete non-empty plan,
never partially; in all cases the message history, completed-task list
and error list are unchanged, because the planner keeps its own working
conversation history. -/
theorem generate_plan_frame (env : PlanEnv) (s : AgentState) :
    (∀ e, (GeneratePlan env s).2 = .error e → (GeneratePlan env s).1 = s) ∧
    ((GeneratePlan env s).2 = .ok () →
      ∃ pl, 0 < pl.tasks.length ∧
        (GeneratePlan env s).1 = { s with plan := some pl }) ∧
    (GeneratePlan env s).1.messages = s.messages ∧
    (GeneratePlan env s).1.completedTasks = s.completedTasks ∧
    (GeneratePlan env s).1.errors = s.errors := by
  obtain ⟨e0, he⟩ | ⟨pl, hpl, hlen, _⟩ :=
    planLoop_cases env 5 0 s (buildContextMessages s)
  · have hG : GeneratePlan env s = (s, .error e0) := he
    rw [hG]
    exact ⟨fun e _ => rfl, fun h => absurd h (by simp), rfl, rfl, rfl⟩
  · have hG : GeneratePlan env s = ({ s with plan := some pl }, .ok ()) := hpl
    rw [hG]
    exact ⟨fun e h => absurd h (by simp), fun _ => ⟨pl, hlen, rfl⟩,
      rfl, rfl, rfl⟩

def planEnvErrW : PlanEnv :=
  { llm := fun _ => .fail ("down"), toolExec := fun _ _ => .ok "",
    now := fun i => i }

theorem generate_plan_frame_witness :
    (GeneratePlan planEnvErrW stW).1 = stW :=
  (generate_plan_frame planEnvErrW stW).1
    ("failed to get LLM response: down") (by decide)

/-- C9: every tool invocation executed during a loop round yields a
ToolResult that carries the identifier of its originating call and whose
output is passed through unchanged when at or under the character
budget, and otherwise is cut to the first budget characters followed by a
visible truncation marker — budget 5000 with marker
`"\n... (truncated)"` in the planner's exploration loop, budget 10000
with marker `"\n... (output truncated)"` in the executor loop; the two
loops place exactly these results into the round's tool-result turn. -/
theorem tool_output_truncation :
    (∀ (env : PlanEnv) (i : Nat) (tc : ToolUseContent),
      (planToolResult env i tc).toolUseId = tc.id ∧
      ∀ o, env.toolExec i tc = .ok o →
        (o.length ≤ 5000 → (planToolResult env i tc).content = o) ∧
        (5000 < o.length → (planToolResult env i tc).content =
          goTake o 5000 ++ "\n... (truncated)")) ∧
    (∀ (env : ExecEnv) (i : Nat) (tc : ToolUseContent),
      (execToolResult env i tc).toolUseId = tc.id ∧
      ∀ o, env.toolExec i tc = .ok o →
        (o.length ≤ 10000 → (execToolResult env i tc).content = o) ∧
        (10000 < o.length → (execToolResult env i tc).content =
          goTake o 10000 ++ "\n... (output truncated)")) ∧
    (∀ (env : ExecEnv) (tid : String) (s : AgentState)
       (msgs : List AMessage) (i fuel : Nat) (text : String)
       (tcs : List ToolUseContent),
      env.llm i = .ok text tcs → 0 < tcs.length →
      execLoop env tid s msgs i (fuel+1) =
        execLoop env tid s
          (msgs ++ [{ role := "assistant", content := .response text tcs },
                    { role := "user", content := .toolResults (tcs.map (execToolResult env i)) }])
          (i+1) fuel) ∧
    (∀ (env : PlanEnv) (s : AgentState) (msgs : List AMessage)
       (i fuel : Nat) (text : String) (tcs : List ToolUseContent),
      env.llm i = .ok text tcs → 0 < tcs.length →
      planLoop env s msgs i (fuel+1) =
        planLoop env s
          (msgs ++ [{ role := "assistant", content := .response text tcs },
                    { role := "user", content := .toolResults (tcs.map (planToolResult env i)) }])
          (i+1) fuel) := by
  refine ⟨?_, ?_, ?_, ?_⟩
  · intro env i tc
    refine ⟨rfl, ?_⟩
    intro o ho
    unfold planToolResult toolOutput
    rw [ho]
    constructor
    · intro hle
      have h : ¬ 5000 < o.length := by omega
      simp [h]
    · intro hgt
      simp [hgt]
  · intro env i tc
    refine ⟨rfl, ?_⟩
    intro o ho
    unfold execToolResult toolOutput
    rw [ho]
    constructor
    · intro hle
      have h : ¬ 10000 < o.length := by omega
      simp [h]
    · intro hgt
      simp [hgt]
  · intro env tid s msgs i fuel text tcs h htcs
    exact execLoop_tools env tid s msgs i fuel text tcs h htcs
  · intro env s msgs i fuel text tcs h htcs
    simp [planLoop, h, htcs]

def planEnvToolW : PlanEnv :=
  { llm := fun _ => .ok "" [], toolExec := fun _ _ => .ok ("small"),
    now := fun i => i }

theorem tool_output_truncation_witness :
    (planToolResult planEnvToolW 0
      { id := "call-1", name := "bash", input := [] }).content = "small" ∧
    (planToolResult planEnvToolW 0
      { id := "call-1", name := "bash", input := [] }).toolUseId = "call-1" :=
  ⟨((tool_output_truncation.1 planEnvToolW 0
      { id := "call-1", name := "bash", input := [] }).2 ("small") rfl).1
      (by decide),
   (tool_output_truncation.1 planEnvToolW 0
      { id := "call-1", name := "bash", input := [] }).1⟩

/-- The executor's completion condition, written out: the `&&` binds
tighter than `||` in the Go source, so only the `"done"` phrase is
guarded by `i > 0`. -/
lemma completionSignal_iff (text : String) (i : Nat) :
    completionSignal text i = true ↔
      (goContains (goToLower text) ("task completed") = true ∨
       goContains (goToLower text) ("task complete") = true ∨
       goContains (goToLower text) ("successfully completed") = true ∨
       (goContains (goToLower text) ("done") = true ∧ 0 < i)) := by
  unfold completionSignal
  simp [Bool.or_eq_true, Bool.and_eq_true]
  tauto

def envC1 : ExecEnv :=
  { llm := fun i => if i = 0 then .ok ("Task completed.") []
                    else .fail ("unreachable"),
    toolExec := fun _ _ => .ok "", clock := fun i => 100 + i,
    startTime := 50 }

/-- C1 counterexample: on the very first round (round 0), a response with
no tool invocations whose text contains the completion phrase
"task completed" does mark the task completed and return successfully —
the round-elapsed gate does not apply to this phrase, contradicting the
claim that no completion phrase causes completion on the very first
round. -/
theorem first_round_completion_counterexample :
    completionSignal ("Task completed.") 0 = true ∧
    (ExecuteTask envC1 stW tlA).2 = .ok () ∧
    (ExecuteTask envC1 stW tlA).1.taskStatus ("task-1") =
      some ("completed") ∧
    ((ExecuteTask envC1 stW tlA).1.findTask ("task-1")).map Task.output =
      some ("Task completed.") := by
  exact ⟨by decide, by decide, by decide, by decide⟩

/-- C1 (amended): at any round of the executor loop whose response
carries no tool invocations, the task is marked completed — with the
response text as output, `completed_at` set, the task appended to the
completed list, and success returned — if and only if the lowercased
response text contains "task completed", "task complete" or
"successfully completed" (on any round, including the first), or
contains "done" and at least one round has already elapsed; the
first-round gate applies only to the phrase "done".  Otherwise the round
leaves the task untouched and the loop continues. -/
theorem no_toolcall_round_completion (env : ExecEnv) (tid : String)
    (s : AgentState) (msgs : List AMessage) (i fuel : Nat) (text : String)
    (p : Plan) (pre : List Task) (tk : Task) (post : List Task)
    (hp : s.plan = some p) (hdec : p.tasks = pre ++ tk :: post)
    (hpre : ∀ t ∈ pre, t.id ≠ tid) (hid : tk.id = tid)
    (hllm : env.llm i = .ok text []) :
    ((goContains (goToLower text) ("task completed") = true ∨
      goContains (goToLower text) ("task complete") = true ∨
      goContains (goToLower text) ("successfully completed") = true ∨
      (goContains (goToLower text) ("done") = true ∧ 0 < i)) →
      execLoop env tid s msgs i (fuel+1) =
        ({ s with plan := some { p with tasks := pre ++ completedTask tk (env.clock i) text :: post }, completedTasks := s.completedTasks ++ [completedTask tk (env.clock i) text] },
         .ok ())) ∧
    (¬ (goContains (goToLower text) ("task completed") = true ∨
        goContains (goToLower text) ("task complete") = true ∨
        goContains (goToLower text) ("successfully completed") = true ∨
        (goContains (goToLower text) ("done") = true ∧ 0 < i)) →
      ∃ ms, execLoop env tid s msgs i (fuel+1) =
        execLoop env tid s ms (i+1) fuel) := by
  constructor
  · intro hcond
    have hsig : completionSignal text i = true :=
      (completionSignal_iff text i).mpr hcond
    rw [execLoop_complete env tid s msgs i fuel text hllm hsig,
      MarkTaskComplete_found s (env.clock i) tid text p pre tk post
        hp hdec hpre hid]
  · intro hcond
    have hsig : completionSignal text i = false :=
      Bool.eq_false_iff.mpr
        (fun h => hcond ((completionSignal_iff text i).mp h))
    exact execLoop_continue env tid s msgs i fuel text hllm hsig

theorem no_toolcall_round_completion_witness :
    execLoop envC1 ("task-1") stW [] 0 5 =
      ({ stW with plan := some { planW with tasks := completedTask tlA (envC1.clock 0) ("Task completed.") :: [tlB] }, completedTasks := stW.completedTasks ++ [completedTask tlA (envC1.clock 0) ("Task completed.")] },
       .ok ()) :=
  (no_toolcall_round_completion envC1 ("task-1") stW [] 0 4
    ("Task completed.") planW [] tlA [tlB] rfl rfl (by decide) rfl
    (by decide)).1 (by decide)

lemma taskStatus_decomp (s : AgentState) (p : Plan) (pre : List Task)
    (tk : Task) (post : List Task) (tid : String)
    (hp : s.plan = some p) (hdec : p.tasks = pre ++ tk :: post)
    (hpre : ∀ t ∈ pre, t.id ≠ tid) (hid : tk.id = tid) :
    s.taskStatus tid = some tk.status ∧ s.findTask tid = some tk := by
  unfold AgentState.taskStatus AgentState.findTask
  rw [hp]
  simp [hdec, find?_first tid pre tk post hpre hid]

lemma find?_ne_middle (tid2 : String) (pre post : List Task) (a b : Task)
    (hab : a.id = b.id) (hne : ¬ b.id = tid2) :
    (pre ++ a :: post).find? (fun t => t.id = tid2) =
      (pre ++ b :: post).find? (fun t => t.id = tid2) := by
  have ha : ¬ a.id = tid2 := by rw [hab]; exact hne
  induction pre with
  | nil => simp [List.find?_cons, ha, hne]
  | cons t pre ih =>
    by_cases h : t.id = tid2 <;>
      simp [List.cons_append, List.find?_cons, h, ih]

/-- C6: a task whose executor loop runs through all 15 rounds without a
completion-service error and without an accepted completion signal ends
with status `completed` — never `failed` or `pending` — with output
exactly `"Task completed (max iterations reached)"`, and `ExecuteTask`
returns successfully. -/
theorem exhaustion_soft_success (env : ExecEnv) (s : AgentState)
    (task : Task) (p : Plan) (pre : List Task) (tk : Task)
    (post : List Task)
    (hp : s.plan = some p) (hdec : p.tasks = pre ++ tk :: post)
    (hpre : ∀ t ∈ pre, t.id ≠ task.id) (hid : tk.id = task.id)
    (hcont : ∀ i, i < maxIterations → roundContinues env i) :
    (ExecuteTask env s task).2 = .ok () ∧
    (ExecuteTask env s task).1.taskStatus task.id = some ("completed") ∧
    ((ExecuteTask env s task).1.findTask task.id).map Task.output =
      some ("Task completed (max iterations reached)") := by
  have hstart := StartTask_found s env.startTime task.id p pre tk post
    hp hdec hpre hid
  have hET : ExecuteTask env s task =
      ((s.StartTask env.startTime task.id).MarkTaskComplete
        (env.clock (0 + maxIterations)) task.id
        ("Task completed (max iterations reached)"), .ok ()) :=
    execLoop_exhaust env task.id maxIterations 0
      (s.StartTask env.startTime task.id)
      (buildTaskMessages (s.StartTask env.startTime task.id) task)
      (fun j _ h2 => hcont j (by omega))
  simp only [Nat.zero_add] at hET
  have hp1 : (s.StartTask env.startTime task.id).plan =
      some { p with tasks := pre ++ startedTask tk env.startTime :: post } := by
    rw [hstart]
  have hmark := MarkTaskComplete_found (s.StartTask env.startTime task.id)
    (env.clock maxIterations) task.id
    ("Task completed (max iterations reached)")
    { p with tasks := pre ++ startedTask tk env.startTime :: post }
    pre (startedTask tk env.startTime) post hp1 rfl hpre hid
  rw [hET, hmark]
  refine ⟨rfl, ?_, ?_⟩
  · show ((pre ++ completedTask (startedTask tk env.startTime)
        (env.clock maxIterations)
        ("Task completed (max iterations reached)") :: post).find?
          (fun t => t.id = task.id)).map Task.status = some ("completed")
    rw [find?_first task.id pre
      (completedTask (startedTask tk env.startTime)
        (env.clock maxIterations)
        ("Task completed (max iterations reached)")) post hpre hid]
    rfl
  · show (((pre ++ completedTask (startedTask tk env.startTime)
        (env.clock maxIterations)
        ("Task completed (max iterations reached)") :: post).find?
          (fun t => t.id = task.id)).map Task.output) =
      some ("Task completed (max iterations reached)")
    rw [find?_first task.id pre
      (completedTask (startedTask tk env.startTime)
        (env.clock maxIterations)
        ("Task completed (max iterations reached)")) post hpre hid]
    rfl

def envLoopW : ExecEnv :=
  { llm := fun _ => .ok ("keep going") [], toolExec := fun _ _ => .ok "",
    clock := fun i => 100 + i, startTime := 50 }

lemma keepGoing_no_signal (i : Nat) :
    completionSignal ("keep going") i = false := by
  unfold completionSignal
  have h1 : goContains (goToLower ("keep going")) ("task completed") = false := by
    decide
  have h2 : goContains (goToLower ("keep going")) ("task complete") = false := by
    decide
  have h3 : goContains (goToLower ("keep going")) ("successfully completed") = false := by
    decide
  have h4 : goContains (goToLower ("keep going")) ("done") = false := by
    decide
  rw [h1, h2, h3, h4]
  rfl

theorem exhaustion_soft_success_witness :
    (ExecuteTask envLoopW stW tlA).2 = .ok () ∧
    (ExecuteTask envLoopW stW tlA).1.taskStatus ("task-1") =
      some ("completed") ∧
    ((ExecuteTask envLoopW stW tlA).1.findTask ("task-1")).map Task.output =
      some ("Task completed (max iterations reached)") :=
  exhaustion_soft_success envLoopW stW tlA planW [] tlA [tlB] rfl rfl
    (by decide) rfl
    (fun i _ => ⟨"keep going", [], rfl, Or.inr (keepGoing_no_signal i)⟩)

/-- C5: a completion-service error at any round of a task's execution
loop marks the task `failed` with the error text in its error field,
appends exactly that one string to Run State's error list, and returns
an ExecutionError; and the orchestrator's loop is not aborted by a task
failure — over a plan with distinct task ids, every task still ends in a
terminal state after the loop, whatever each task's执行 outcome was. -/
theorem service_error_isolated :
    (∀ (env : ExecEnv) (tid : String) (s : AgentState)
       (msgs : List AMessage) (i fuel : Nat) (e : String)
       (p : Plan) (pre : List Task) (tk : Task) (post : List Task),
      s.plan = some p → p.tasks = pre ++ tk :: post →
      (∀ t ∈ pre, t.id ≠ tid) → tk.id = tid →
      env.llm i = .fail e →
      execLoop env tid s msgs i (fuel+1) =
        ({ s with plan := some { p with tasks := pre ++ failedTask tk (env.clock i) e :: post }, errors := s.errors ++ [e] },
         .error ("LLM error: " ++ e))) ∧
    (∀ (envs : Nat → ExecEnv) (s : AgentState) (p : Plan),
      s.plan = some p → (p.tasks.map Task.id).Nodup →
      ∃ p2 : Plan, (runTasks envs s 0 p.tasks.length).plan = some p2 ∧
        p2.tasks.length = p.tasks.length ∧
        ∀ t ∈ p2.tasks, t.status = "completed" ∨ t.status = "failed") := by
  constructor
  · intro env tid s msgs i fuel e p pre tk post hp hdec hpre hid hllm
    rw [execLoop_fail env tid s msgs i fuel e hllm,
      MarkTaskFailed_found s (env.clock i) tid e p pre tk post
        hp hdec hpre hid]
  · intro envs s p hp hnd
    obtain ⟨p2, hplan, hids, _, hterm⟩ :=
      runTasks_all_terminal envs p.tasks.length 0 s p hp hnd (by omega)
    refine ⟨p2, hplan, ?_, ?_⟩
    · have h := congrArg List.length hids
      simpa using h
    · intro t ht
      obtain ⟨j, hj⟩ := List.mem_iff_getElem?.mp ht
      exact hterm j t (by omega) hj

def envErrW : ExecEnv :=
  { llm := fun _ => .fail ("api down"), toolExec := fun _ _ => .ok "",
    clock := fun i => 100 + i, startTime := 50 }

theorem service_error_isolated_witness :
    execLoop envErrW ("task-1") stW [] 2 13 =
      ({ stW with plan := some { planW with tasks := failedTask tlA (envErrW.clock 2) ("api down") :: [tlB] }, errors := stW.errors ++ ["api down"] },
       .error ("LLM error: api down")) :=
  service_error_isolated.1 envErrW ("task-1") stW [] 2 12 ("api down")
    planW [] tlA [tlB] rfl rfl (by decide) rfl rfl

/-- C4: over the operation sequence the executor performs on a task —
`StartTask` on entry, then exactly one of `MarkTaskComplete` or
`MarkTaskFailed` — the observed status sequence is the non-decreasing
walk `pending → in_progress → {completed | failed}`: a task never
returns to `pending`, never switches between `completed` and `failed`,
and at each observation point `completed_at` is set exactly when the
status is terminal; tasks with other ids are not touched. -/
theorem task_status_walk (env : ExecEnv) (s : AgentState) (task : Task)
    (p : Plan) (pre : List Task) (tk : Task) (post : List Task)
    (hp : s.plan = some p) (hdec : p.tasks = pre ++ tk :: post)
    (hpre : ∀ t ∈ pre, t.id ≠ task.id) (hid : tk.id = task.id)
    (hpend : tk.status = "pending") (hca : tk.completedAt = none) :
    ∃ st2, s.taskStatus task.id = some ("pending") ∧
      (s.StartTask env.startTime task.id).taskStatus task.id =
        some ("in_progress") ∧
      (ExecuteTask env s task).1.taskStatus task.id = some st2 ∧
      stepOK ("pending") ("in_progress") ∧ stepOK ("in_progress") st2 ∧
      (st2 = "completed" ∨ st2 = "failed") ∧
      caIffTerminal s task.id ∧
      caIffTerminal (s.StartTask env.startTime task.id) task.id ∧
      caIffTerminal (ExecuteTask env s task).1 task.id ∧
      (∀ tid2, ¬ tid2 = tk.id →
        (ExecuteTask env s task).1.taskStatus tid2 = s.taskStatus tid2) := by
  obtain ⟨hstat0, hfind0⟩ :=
    taskStatus_decomp s p pre tk post task.id hp hdec hpre hid
  have hstart := StartTask_found s env.startTime task.id p pre tk post
    hp hdec hpre hid
  obtain ⟨tk2, hid2, hterm, hcaset, hplan⟩ :=
    ExecuteTask_shape env s task p pre tk post hp hdec hpre hid
  have hp1 : (s.StartTask env.startTime task.id).plan =
      some { p with tasks := pre ++ startedTask tk env.startTime :: post } := by
    rw [hstart]
  obtain ⟨hstat1, hfind1⟩ := taskStatus_decomp
    (s.StartTask env.startTime task.id) _ pre
    (startedTask tk env.startTime) post task.id hp1 rfl hpre hid
  obtain ⟨hstat2, hfind2⟩ := taskStatus_decomp
    (ExecuteTask env s task).1 _ pre tk2 post task.id hplan rfl hpre
    (by rw [hid2]; exact hid)
  refine ⟨tk2.status, by rw [hstat0, hpend], hstat1, hstat2,
    Or.inr (Or.inl ⟨rfl, rfl⟩), Or.inr (Or.inr ⟨rfl, hterm⟩), hterm,
    ?_, ?_, ?_, ?_⟩
  · intro t ht
    rw [hfind0] at ht
    cases ht
    rw [hca, hpend]
    simp
  · intro t ht
    rw [hfind1] at ht
    cases ht
    simp [startedTask, hca]
  · intro t ht
    rw [hfind2] at ht
    cases ht
    simp only [hcaset, true_iff]
    exact hterm
  · intro tid2 hne
    have hL : (ExecuteTask env s task).1.taskStatus tid2 =
        ((pre ++ tk2 :: post).find? (fun t => t.id = tid2)).map
          Task.status := by
      unfold AgentState.taskStatus
      rw [hplan]
    have hR : s.taskStatus tid2 =
        (p.tasks.find? (fun t => t.id = tid2)).map Task.status := by
      unfold AgentState.taskStatus
      rw [hp]
    rw [hL, hR, hdec,
      find?_ne_middle tid2 pre post tk2 tk hid2 (fun hh => hne hh.symm)]

theorem task_status_walk_witness :
    ∃ st2, stW.taskStatus ("task-1") = some ("pending") ∧
      (stW.StartTask envC1.startTime ("task-1")).taskStatus ("task-1") =
        some ("in_progress") ∧
      (ExecuteTask envC1 stW tlA).1.taskStatus ("task-1") = some st2 ∧
      stepOK ("pending") ("in_progress") ∧ stepOK ("in_progress") st2 ∧
      (st2 = "completed" ∨ st2 = "failed") ∧
      caIffTerminal stW ("task-1") ∧
      caIffTerminal (stW.StartTask envC1.startTime ("task-1")) ("task-1") ∧
      caIffTerminal (ExecuteTask envC1 stW tlA).1 ("task-1") ∧
      (∀ tid2, ¬ tid2 = tlA.id →
        (ExecuteTask envC1 stW tlA).1.taskStatus tid2 =
          stW.taskStatus tid2) :=
  task_status_walk envC1 stW tlA planW [] tlA [tlB] rfl rfl (by decide)
    rfl rfl rfl

/-- C8: when the target directory is missing, `Run` fails immediately
with the state unchanged and independently of the completion-service and
tool oracles (no service call, no planning round, no plan, no task is
started); it also fails when the planner errors (again with the original
state); and when planning succeeds it always returns a summary
successfully, whatever the individual task outcomes. -/
theorem run_gate (env env2 : RunEnv) (s : AgentState) :
    (env.dirMissing = true →
      Run env s =
        (s, .error ("working directory does not exist: " ++ s.workingDir)) ∧
      (env2.dirMissing = true → Run env s = Run env2 s)) ∧
    (env.dirMissing = false →
      (∀ e, (GeneratePlan env.planEnv s).2 = .error e →
        Run env s = (s, .error ("planning failed: " ++ e))) ∧
      ((GeneratePlan env.planEnv s).2 = .ok () →
        ∃ sum, (Run env s).2 = .ok sum)) := by
  constructor
  · intro h
    constructor
    · simp [Run, h]
    · intro h2
      simp [Run, h, h2]
  · intro h
    obtain ⟨e0, he⟩ | ⟨pl, hpl, hlen, _⟩ :=
      planLoop_cases env.planEnv 5 0 s (buildContextMessages s)
    · have hG : GeneratePlan env.planEnv s = (s, .error e0) := he
      constructor
      · intro e h2
        rw [hG] at h2
        simp only [] at h2
        cases h2
        simp [Run, h, hG]
      · intro h2
        rw [hG] at h2
        simp at h2
    · have hG : GeneratePlan env.planEnv s =
          ({ s with plan := some pl }, .ok ()) := hpl
      constructor
      · intro e h2
        rw [hG] at h2
        simp at h2
      · intro _
        have hz : ¬ pl.tasks.length = 0 := by omega
        refine ⟨summaryOf (runTasks env.execEnvs
          { s with plan := some pl } 0 pl.tasks.length), ?_⟩
        simp [Run, h, hG, hz]

def runEnvMissW : RunEnv :=
  { dirMissing := true, planEnv := planEnvErrW, execEnvs := fun _ => envLoopW }

theorem run_gate_witness :
    Run runEnvMissW (NewAgentState "/w" "req") =
      (NewAgentState "/w" "req",
       .error ("working directory does not exist: /w")) :=
  ((run_gate runEnvMissW runEnvMissW (NewAgentState "/w" "req")).1 rfl).1

end GoSwe
